import Mathlib

/-!
Shallow embedding of the Finnhub data collector (main.py and
src/utils/rate_limiter.py) and proofs about its specification claims.

Time is modelled by rationals; `time.time()` values are passed explicitly
as `now` arguments, and `time.sleep` is modelled exactly: the wall clock
after a sleep equals the clock before plus the slept duration.
-/

/-! ## Module-level constants (main.py) -/

def RECONNECT_DELAY : ℚ := 5

def MAX_RETRIES : ℕ := 5

def MAX_REQUESTS_PER_MINUTE : ℕ := 30

def SYNC_INTERVAL : ℚ := 3

def SYNC_TOLERANCE : ℚ := 1/2

def PING_TIMEOUT : ℚ := 5

def MAX_PING_RETRIES : ℕ := 3

def BUFFER_SIZE : ℕ := 100

def RATE_LIMIT_WAIT : ℚ := 60

/-! ## SyncWindowCollector: FinnhubWebSocket.should_process_message -/

/-- The two fields of `FinnhubWebSocket` read and written by
`should_process_message`: `last_sync_time` and `collected_symbols`
(a Python set, modelled as a duplicate-free-enough list used only
through membership and insertion). -/
structure SyncState where
  last_sync_time : ℚ
  collected_symbols : List String
deriving DecidableEq, Repr

/-- Embedding of `FinnhubWebSocket.should_process_message` (main.py lines
151-176).  Returns the updated state together with the boolean result.
On rollover (elapsed >= SYNC_INTERVAL - SYNC_TOLERANCE) the symbol set is
cleared, `last_sync_time` is set to `now` and the call returns true
without recording `symbol`; otherwise the symbol is accepted exactly when
it is not yet in `collected_symbols`, in which case it is recorded. -/
def should_process_message (s : SyncState) (symbol : String) (now : ℚ) :
    SyncState × Bool :=
  let time_since_last_sync := now - s.last_sync_time
  if SYNC_INTERVAL - SYNC_TOLERANCE ≤ time_since_last_sync then
    (⟨now, []⟩, true)
  else if symbol ∈ s.collected_symbols then
    (s, false)
  else
    (⟨s.last_sync_time, symbol :: s.collected_symbols⟩, true)

/-- A sequence of calls to `should_process_message`, threading the state. -/
def run_sync (s : SyncState) : List (String × ℚ) → SyncState
  | [] => s
  | c :: cs => run_sync (should_process_message s c.1 c.2).1 cs

/-! ## ConnectionManager: should_reconnect / connect / on_open -/

/-- The fields of `FinnhubWebSocket` driving the reconnect policy. -/
structure ConnState where
  retry_count : ℕ
  last_connection_time : ℚ
deriving DecidableEq, Repr

/-- Embedding of `FinnhubWebSocket.should_reconnect` (main.py lines
95-109): when the retry counter has reached `MAX_RETRIES` and the
cool-down has not elapsed, answer false; when it has elapsed, reset the
retry counter to zero and answer true; below `MAX_RETRIES` answer true
unchanged. -/
def should_reconnect (s : ConnState) (now : ℚ) : ConnState × Bool :=
  if MAX_RETRIES ≤ s.retry_count then
    if now - s.last_connection_time < RECONNECT_DELAY then
      (s, false)
    else
      (⟨0, s.last_connection_time⟩, true)
  else
    (s, true)

/-- Embedding of the state-changing part of `FinnhubWebSocket.connect`
(main.py lines 111-149): if `should_reconnect` answers false the call
logs, sleeps and returns without touching the state (second component
false = no socket opened); otherwise it records the attempt time,
increments the retry counter and opens a new socket (second component
true). -/
def connect_step (s : ConnState) (now : ℚ) : ConnState × Bool :=
  let sr := should_reconnect s now
  if sr.2 then
    (⟨sr.1.retry_count + 1, now⟩, true)
  else
    (sr.1, false)

/-- Embedding of the retry-counter effect of `FinnhubWebSocket.on_open`
(main.py lines 329-341): `self.retry_count = 0`. -/
def on_open_conn (s : ConnState) : ConnState :=
  ⟨0, s.last_connection_time⟩

/-! ## RateLimiter.__init__ (src/utils/rate_limiter.py lines 16-26) -/

/-- Configuration stored by `RateLimiter.__init__`. -/
structure RLConfig where
  max_requests : ℤ
  time_window : ℤ
deriving DecidableEq, Repr

/-- Embedding of `RateLimiter.__init__`: the body consists solely of
attribute assignments — there is no parameter validation and no raise
statement, so construction always succeeds (`none` would model a raised
exception; it is never returned). -/
def rateLimiter_init (max_requests : ℤ) (time_window : ℤ) : Option RLConfig :=
  some ⟨max_requests, time_window⟩

/-! ## on_error (main.py lines 287-307) -/

/-- Character-list version of Python `needle == haystack[:len(needle)]`. -/
def startsWithChars : List Char → List Char → Bool
  | _, [] => true
  | [], _ :: _ => false
  | h :: t, n :: ns => (h == n) && startsWithChars t ns

/-- Character-list version of Python substring membership
`needle in haystack`. -/
def containsChars : List Char → List Char → Bool
  | [], needle => needle.isEmpty
  | h :: t, needle => startsWithChars (h :: t) needle || containsChars t needle

/-- Embedding of `FinnhubWebSocket.on_error`: the handler inspects the
error text for the substring "429"; on a match it waits
`RATE_LIMIT_WAIT` seconds before reconnecting, otherwise it waits
`RECONNECT_DELAY`.  It returns normally in both cases (second component
true = `connect()` is invoked; the handler raises nothing). -/
def on_error_model (error : List Char) : ℚ × Bool :=
  if containsChars error ['4', '2', '9'] then
    (RATE_LIMIT_WAIT, true)
  else
    (RECONNECT_DELAY, true)

/-! ## Health check: FinnhubWebSocket.check_connection / on_pong -/

/-- Embedding of one iteration of the `check_connection` loop (main.py
lines 370-396) acting on the local `ping_failures` counter.  `now` is the
clock at the top of the iteration and `lastPong` the current
`last_pong_time` (written by `on_pong`).  The boolean output records
whether the iteration force-closes the socket (`self.ws.close()`). -/
def check_step (pf : ℕ) (now lastPong : ℚ) : ℕ × Bool :=
  if PING_TIMEOUT < now - lastPong then
    if MAX_PING_RETRIES ≤ pf + 1 then (0, true) else (pf + 1, false)
  else
    (0, false)

/-- Iterated health-check loop over a trace of (now, last_pong_time)
observations; returns the final counter and the close decision of every
iteration. -/
def check_run (pf : ℕ) : List (ℚ × ℚ) → ℕ × List Bool
  | [] => (pf, [])
  | c :: cs =>
    let st := check_step pf c.1 c.2
    let rest := check_run st.1 cs
    (rest.1, st.2 :: rest.2)

/-- The iteration at position `j` of the trace observed a missed pong
(its `now - last_pong_time` strictly exceeds the ping timeout). -/
def missAt (trace : List (ℚ × ℚ)) (j : ℕ) : Prop :=
  ∃ c, trace.get? j = some c ∧ PING_TIMEOUT < c.1 - c.2

instance (trace : List (ℚ × ℚ)) (j : ℕ) : Decidable (missAt trace j) := by
  unfold missAt
  cases trace.get? j with
  | none => exact isFalse (by simp)
  | some c => exact decidable_of_iff (PING_TIMEOUT < c.1 - c.2) (by simp)

/-! ## TradeBuffer: Queue(maxsize=BUFFER_SIZE) with put_nowait / get_nowait -/

/-- The dictionary built by `on_message` and enqueued into the buffer. -/
structure StockData where
  symbol : String
  price : ℚ
  volume : ℚ
  timestamp : String
  collected_at : String
deriving DecidableEq, Repr

/-- `queue.Queue(maxsize=BUFFER_SIZE).put_nowait`: appends at the back
when the queue is below capacity, raises `queue.Full` (modelled as
`none`) otherwise. -/
def put_nowait (q : List StockData) (x : StockData) : Option (List StockData) :=
  if q.length < BUFFER_SIZE then some (q ++ [x]) else none

/-- The enqueue in `FinnhubWebSocket.on_message` (main.py lines 269-276):
`put_nowait` inside try/except — a raised `queue.Full` is caught and
logged, and the event is dropped, leaving the buffer unchanged. -/
def on_message_enqueue (q : List StockData) (x : StockData) : List StockData :=
  match put_nowait q x with
  | some q2 => q2
  | none => q

/-- The drain loop at the top of `FinnhubWebSocket.process_buffer`
(main.py lines 185-191): `while not buffer.empty() and
len(trades_to_process) < BUFFER_SIZE: trades_to_process.append(
buffer.get_nowait())`.  Returns the remaining queue and the accumulated
`trades_to_process`. -/
def drain : List StockData → List StockData → List StockData × List StockData
  | [], acc => ([], acc)
  | x :: rest, acc =>
    if acc.length < BUFFER_SIZE then drain rest (acc ++ [x])
    else (x :: rest, acc)

/-- Buffer states reachable in the single-threaded model: the buffer
starts empty; `on_message` enqueues (dropping on overflow) and
`process_buffer` drains up to `BUFFER_SIZE` items from the front. -/
inductive BufReachable : List StockData → Prop
  | init : BufReachable []
  | enqueue (q : List StockData) (x : StockData) :
      BufReachable q → BufReachable (on_message_enqueue q x)
  | flush (q : List StockData) :
      BufReachable q → BufReachable (drain q []).1

/-! ## RateLimiter.wait_if_needed (src/utils/rate_limiter.py lines 28-52) -/

/-- The mutable state of a `RateLimiter`: the recorded admission
timestamps (oldest first) and the time of the last admission. -/
structure RLState where
  requests : List ℚ
  last_request_time : ℚ
deriving DecidableEq, Repr

/-- Fresh state installed by `__init__`: `requests = []`,
`last_request_time = 0.0`. -/
def rl_start : RLState := ⟨[], 0⟩

/-- Embedding of `RateLimiter.wait_if_needed` called at wall-clock time
`now`.  Sleeps are exact: the first sleep enforces a minimum one-second
gap after `last_request_time`; eviction then filters out entries at
least `time_window` old relative to the *stale* `now` (the code does not
refresh `current_time` after the first sleep); if at least
`max_requests` entries remain, the call sleeps until the oldest expires
and removes only that one entry (`self.requests[1:]`); finally the
admission timestamp `now + sleep1 + sleep2` is recorded and returned.
`none` models the `IndexError` raised by `self.requests[0]` when
`max_requests <= 0` and the list is empty. -/
def wait_if_needed (maxReq : ℕ) (W : ℚ) (s : RLState) (now : ℚ) :
    Option (RLState × ℚ) :=
  let sleep1 := max 0 (1 - (now - s.last_request_time))
  let reqs := s.requests.filter (fun r => now - r < W)
  if maxReq ≤ reqs.length then
    match reqs with
    | [] => none
    | oldest :: rest =>
      let sleep2 := max 0 (oldest + W - now)
      let t := now + sleep1 + sleep2
      some (⟨rest ++ [t], t⟩, t)
  else
    let t := now + sleep1
    some (⟨reqs ++ [t], t⟩, t)

/-- A sequential caller: each call is issued at a wall-clock time no
earlier than the return time of the previous call (which equals
`last_request_time`).  Returns `none` for traces that a single
sequential caller cannot realize, and otherwise the final state together
with the list of admission timestamps. -/
def rl_trace (maxReq : ℕ) (W : ℚ) : RLState → List ℚ → Option (RLState × List ℚ)
  | s, [] => some (s, [])
  | s, now :: rest =>
    if s.last_request_time ≤ now then
      match wait_if_needed maxReq W s now with
      | none => none
      | some (s2, a) =>
        match rl_trace maxReq W s2 rest with
        | none => none
        | some (s3, as) => some (s3, a :: as)
    else none

/-! ## FinnhubWebSocket.process_buffer (main.py lines 178-214) -/

/-- The per-item loop of `process_buffer`: for each drained trade, first
`rate_limiter.wait_if_needed()` (admission at the supplied wall-clock
time), then `db_manager.insert_stock_data(trade)` whose outcome is given
by the oracle `insertFn`; a truthy result increments `success_count`, a
falsy one is logged and the trade dropped.  Returns the final limiter
state, the success count, and the number of limiter admissions
performed. -/
def flush_items (maxReq : ℕ) (W : ℚ) (insertFn : StockData → Bool) :
    List StockData → RLState → List ℚ → Option (RLState × ℕ × ℕ)
  | [], rl, _ => some (rl, 0, 0)
  | tr :: rest, rl, nows =>
    match nows with
    | [] => none
    | now :: nows2 =>
      if rl.last_request_time ≤ now then
        match wait_if_needed maxReq W rl now with
        | none => none
        | some (rl2, _) =>
          match flush_items maxReq W insertFn rest rl2 nows2 with
          | none => none
          | some (rl3, succ, adm) =>
            some (rl3, (if insertFn tr then succ + 1 else succ), adm + 1)
      else none

/-- Embedding of `FinnhubWebSocket.process_buffer`: drain up to
`BUFFER_SIZE` items in FIFO order, then run the per-item
rate-limit-and-insert loop.  Returns the remaining queue, the drained
items, the success count, the admission count and the final limiter
state. -/
def process_buffer (maxReq : ℕ) (W : ℚ) (insertFn : StockData → Bool)
    (q : List StockData) (rl : RLState) (nows : List ℚ) :
    Option (List StockData × List StockData × ℕ × ℕ × RLState) :=
  let d := drain q []
  match flush_items maxReq W insertFn d.2 rl nows with
  | none => none
  | some (rl2, succ, adm) => some (d.1, d.2, succ, adm, rl2)

/-! ## Specification predicates for the rate limiter -/

/-- Admission timestamps in `L` spaced so that entries `maxReq` apart
differ by at least `W` — the index form of "at most `maxReq` admissions
in any half-open sliding window of length `W`". -/
def rl_spacing (maxReq : ℕ) (W : ℚ) (L : List ℚ) : Prop :=
  ∀ i x y, L.get? i = some x → L.get? (i + maxReq) = some y → x + W ≤ y

/-- The number of admission timestamps of `L` falling in the half-open
sliding window `(t, t + W]`. -/
def rl_window_count (W : ℚ) (L : List ℚ) (t : ℚ) : ℕ :=
  L.countP (fun a => decide (t < a) && decide (a ≤ t + W))

/-- Invariant tying a limiter state to the full history `h` of admission
timestamps (oldest first): the stored `requests` are a suffix of `h`;
every entry already dropped from `requests` expired no later than the
last admission; every recorded timestamp is bounded by
`last_request_time`; `h` is sorted; at most `maxReq` entries are stored;
and `h` has the `maxReq`/`W` spacing property. -/
def RLInv (maxReq : ℕ) (W : ℚ) (h : List ℚ) (s : RLState) : Prop :=
  (∃ d, h = d ++ s.requests ∧ ∀ x ∈ d, x + W ≤ s.last_request_time) ∧
  (∀ x ∈ h, x ≤ s.last_request_time) ∧
  List.Sorted (· ≤ ·) h ∧
  s.requests.length ≤ maxReq ∧
  rl_spacing maxReq W h

/-! ## Lemmas about the sync window -/

theorem spm_in_window_last (s : SyncState) (sym : String) (t : ℚ)
    (h : t - s.last_sync_time < SYNC_INTERVAL - SYNC_TOLERANCE) :
    (should_process_message s sym t).1.last_sync_time = s.last_sync_time := by
  unfold should_process_message
  rw [if_neg (not_le.mpr h)]
  split <;> rfl

theorem spm_in_window_mem (s : SyncState) (sym sym2 : String) (t : ℚ)
    (h : t - s.last_sync_time < SYNC_INTERVAL - SYNC_TOLERANCE)
    (hm : sym2 ∈ s.collected_symbols) :
    sym2 ∈ (should_process_message s sym t).1.collected_symbols := by
  unfold should_process_message
  rw [if_neg (not_le.mpr h)]
  split
  · exact hm
  · exact List.mem_cons_of_mem _ hm

theorem spm_in_window_self_mem (s : SyncState) (sym : String) (t : ℚ)
    (h : t - s.last_sync_time < SYNC_INTERVAL - SYNC_TOLERANCE) :
    sym ∈ (should_process_message s sym t).1.collected_symbols := by
  unfold should_process_message
  rw [if_neg (not_le.mpr h)]
  split
  · next hmem => exact hmem
  · exact List.mem_cons_self _ _

theorem spm_in_window_false (s : SyncState) (sym : String) (t : ℚ)
    (h : t - s.last_sync_time < SYNC_INTERVAL - SYNC_TOLERANCE)
    (hm : sym ∈ s.collected_symbols) :
    (should_process_message s sym t).2 = false := by
  unfold should_process_message
  rw [if_neg (not_le.mpr h), if_pos hm]

theorem run_sync_in_window (s : SyncState) (sym : String)
    (calls : List (String × ℚ))
    (hc : ∀ c ∈ calls, c.2 - s.last_sync_time < SYNC_INTERVAL - SYNC_TOLERANCE)
    (hm : sym ∈ s.collected_symbols) :
    (run_sync s calls).last_sync_time = s.last_sync_time ∧
      sym ∈ (run_sync s calls).collected_symbols := by
  induction calls generalizing s with
  | nil => exact ⟨rfl, hm⟩
  | cons c cs ih =>
    have hc0 : c.2 - s.last_sync_time < SYNC_INTERVAL - SYNC_TOLERANCE :=
      hc c (List.mem_cons_self _ _)
    have hlast := spm_in_window_last s c.1 c.2 hc0
    have h2 := ih (should_process_message s c.1 c.2).1
      (fun d hd => by rw [hlast]; exact hc d (List.mem_cons_of_mem _ hd))
      (spm_in_window_mem s c.1 sym c.2 hc0 hm)
    exact ⟨by rw [run_sync, h2.1, hlast], h2.2⟩

/-- Claim C1 (counterexample): starting from `last_sync_time = 0` with no
collected symbols, a call for "AAPL" at time 3 triggers the window
rollover and returns true without recording "AAPL"; a second call for
"AAPL" at time 4 lies in the same window (no rollover: elapsed 1 <
SYNC_INTERVAL - SYNC_TOLERANCE and `last_sync_time` is unchanged) and
returns true again — the same symbol is accepted twice within one sync
window, refuting the claim as stated. -/
theorem C1_counterexample :
    (should_process_message ⟨0, []⟩ "AAPL" 3).2 = true ∧
    (should_process_message (should_process_message ⟨0, []⟩ "AAPL" 3).1
        "AAPL" 4).2 = true ∧
    (should_process_message (should_process_message ⟨0, []⟩ "AAPL" 3).1
        "AAPL" 4).1.last_sync_time =
      (should_process_message ⟨0, []⟩ "AAPL" 3).1.last_sync_time ∧
    4 - (should_process_message ⟨0, []⟩ "AAPL" 3).1.last_sync_time <
      SYNC_INTERVAL - SYNC_TOLERANCE := by
  norm_num [should_process_message, SYNC_INTERVAL, SYNC_TOLERANCE]

/-- Claim C1 (amended): within a single sync window, only the rollover
call can duplicate a symbol.  Once a symbol has been seen by a
non-rollover call, every later non-rollover call in the same window for
that symbol returns false — the membership branch accepts each symbol at
most once per window — while the first call after a rollover returns
true unconditionally regardless of its symbol. -/
theorem C1_window_dedup_amended (s : SyncState) (sym : String) (t1 : ℚ)
    (mids : List (String × ℚ)) (t2 : ℚ) (s2 : SyncState) (sym2 : String)
    (t3 : ℚ)
    (h1 : t1 - s.last_sync_time < SYNC_INTERVAL - SYNC_TOLERANCE)
    (hmids : ∀ c ∈ mids,
      c.2 - s.last_sync_time < SYNC_INTERVAL - SYNC_TOLERANCE)
    (h2 : t2 - s.last_sync_time < SYNC_INTERVAL - SYNC_TOLERANCE)
    (h3 : SYNC_INTERVAL - SYNC_TOLERANCE ≤ t3 - s2.last_sync_time) :
    (should_process_message
        (run_sync (should_process_message s sym t1).1 mids) sym t2).2 = false
    ∧ (should_process_message s2 sym2 t3).2 = true := by
  constructor
  · have hlast1 := spm_in_window_last s sym t1 h1
    have hmem1 := spm_in_window_self_mem s sym t1 h1
    have hrun := run_sync_in_window (should_process_message s sym t1).1 sym mids
      (fun c hc => by rw [hlast1]; exact hmids c hc) hmem1
    apply spm_in_window_false
    · rw [hrun.1, hlast1]; exact h2
    · exact hrun.2
  · unfold should_process_message
    rw [if_pos h3]

/-- Witness for `C1_window_dedup_amended` at concrete inputs: "AAPL"
accepted at t=1, an unrelated "MSFT" call at t=3/2, then "AAPL" rejected
at t=2 within the same window; and a rollover call at t=3 accepted. -/
theorem C1_witness :
    (should_process_message
        (run_sync (should_process_message ⟨0, []⟩ "AAPL" 1).1
          [("MSFT", 3/2)]) "AAPL" 2).2 = false
    ∧ (should_process_message ⟨0, []⟩ "TSLA" 3).2 = true :=
  C1_window_dedup_amended ⟨0, []⟩ "AAPL" 1 [("MSFT", 3/2)] 2 ⟨0, []⟩ "TSLA" 3
    (by norm_num [SYNC_INTERVAL, SYNC_TOLERANCE])
    (by norm_num [SYNC_INTERVAL, SYNC_TOLERANCE])
    (by norm_num [SYNC_INTERVAL, SYNC_TOLERANCE])
    (by norm_num [SYNC_INTERVAL, SYNC_TOLERANCE])

/-! ## Claim C3: RateLimiter construction -/

/-- Claim C3 (code contradicts its own tests): `RateLimiter.__init__`
performs no validation, so construction with non-positive `max_requests`
or `time_window` succeeds instead of raising, contradicting
`test_rate_limiter_edge_cases`, which expects a `ValueError` on each of
these inputs. -/
theorem C3_init_accepts_nonpositive :
    rateLimiter_init (-1) 1 = some ⟨-1, 1⟩ ∧
    rateLimiter_init 1 (-1) = some ⟨1, -1⟩ ∧
    rateLimiter_init 0 1 = some ⟨0, 1⟩ ∧
    rateLimiter_init 1 0 = some ⟨1, 0⟩ := by
  decide

/-! ## Claims C4 and C7: reconnect policy -/

/-- Claim C4 (counterexample): with the retry counter at `MAX_RETRIES`
and the cool-down elapsed, `should_reconnect` — not the `on_open`
handler — resets `retry_count` to zero, refuting the claim that only a
successful Connected transition does so. -/
theorem C4_counterexample :
    (⟨MAX_RETRIES, 0⟩ : ConnState).retry_count ≠ 0 ∧
    (should_reconnect ⟨MAX_RETRIES, 0⟩ RECONNECT_DELAY).1.retry_count = 0 ∧
    (should_reconnect ⟨MAX_RETRIES, 0⟩ RECONNECT_DELAY).2 = true := by
  norm_num [should_reconnect, MAX_RETRIES, RECONNECT_DELAY]

/-- Claim C4 (amended): `retry_count` is reset to zero by `on_open` and
also by `should_reconnect` exactly when the counter has reached
`MAX_RETRIES` and the cool-down has elapsed; `connect` itself always
leaves a non-zero counter. -/
theorem C4_retry_reset_amended (s : ConnState) (now : ℚ) :
    (on_open_conn s).retry_count = 0 ∧
    ((should_reconnect s now).1.retry_count = 0 ↔
      s.retry_count = 0 ∨
        (MAX_RETRIES ≤ s.retry_count ∧
          RECONNECT_DELAY ≤ now - s.last_connection_time)) ∧
    0 < (connect_step s now).1.retry_count := by
  refine ⟨rfl, ?_, ?_⟩
  · unfold should_reconnect
    by_cases hge : MAX_RETRIES ≤ s.retry_count
    · by_cases hlt : now - s.last_connection_time < RECONNECT_DELAY
      · rw [if_pos hge, if_pos hlt]
        have hne : s.retry_count ≠ 0 := by
          simp only [MAX_RETRIES] at hge; omega
        simp [hne, not_le.mpr hlt]
      · rw [if_pos hge, if_neg hlt]
        simp [hge, not_lt.mp hlt]
    · rw [if_neg hge]
      simp [hge]
  · unfold connect_step should_reconnect
    by_cases hge : MAX_RETRIES ≤ s.retry_count
    · by_cases hlt : now - s.last_connection_time < RECONNECT_DELAY
      · rw [if_pos hge, if_pos hlt]
        simp only [MAX_RETRIES] at hge
        simp only [Bool.false_eq_true, if_false]
        omega
      · rw [if_pos hge, if_neg hlt]
        simp
    · rw [if_neg hge]
      simp

/-- Witness for `C4_retry_reset_amended` at a concrete state. -/
theorem C4_witness :
    (on_open_conn ⟨3, 0⟩).retry_count = 0 ∧
    ((should_reconnect ⟨3, 0⟩ 1).1.retry_count = 0 ↔
      (⟨3, 0⟩ : ConnState).retry_count = 0 ∨
        (MAX_RETRIES ≤ (⟨3, 0⟩ : ConnState).retry_count ∧
          RECONNECT_DELAY ≤ 1 - (⟨3, 0⟩ : ConnState).last_connection_time)) ∧
    0 < (connect_step ⟨3, 0⟩ 1).1.retry_count :=
  C4_retry_reset_amended ⟨3, 0⟩ 1

/-- Claim C7: once the retry counter has reached `MAX_RETRIES`, a
`connect()` call within the cool-down window leaves the state untouched
and opens no socket; a call after the cool-down has elapsed resets the
counter (to 1 for the fresh attempt), records the attempt time and opens
a socket; and while the counter is below `MAX_RETRIES` each call simply
increments it and opens a socket. -/
theorem C7_cooldown_gate (s s2 : ConnState) (now : ℚ)
    (hmax : MAX_RETRIES ≤ s.retry_count)
    (hlt : s2.retry_count < MAX_RETRIES) :
    (now - s.last_connection_time < RECONNECT_DELAY →
      connect_step s now = (s, false)) ∧
    (RECONNECT_DELAY ≤ now - s.last_connection_time →
      connect_step s now = (⟨1, now⟩, true)) ∧
    connect_step s2 now = (⟨s2.retry_count + 1, now⟩, true) := by
  refine ⟨?_, ?_, ?_⟩
  · intro h
    unfold connect_step should_reconnect
    rw [if_pos hmax, if_pos h]
    rfl
  · intro h
    unfold connect_step should_reconnect
    rw [if_pos hmax, if_neg (not_lt.mpr h)]
    rfl
  · unfold connect_step should_reconnect
    rw [if_neg (not_le.mpr hlt)]
    rfl

/-- Witness for `C7_cooldown_gate` at concrete states: deferral inside
the cool-down, reset-and-attempt after it, and a plain increment below
`MAX_RETRIES`. -/
theorem C7_witness :
    connect_step ⟨5, 0⟩ 1 = (⟨5, 0⟩, false) ∧
    connect_step ⟨5, 0⟩ 6 = (⟨1, 6⟩, true) ∧
    connect_step ⟨0, 2⟩ 3 = (⟨1, 3⟩, true) :=
  ⟨(C7_cooldown_gate ⟨5, 0⟩ ⟨0, 2⟩ 1 (by norm_num [MAX_RETRIES])
      (by norm_num [MAX_RETRIES])).1 (by norm_num [RECONNECT_DELAY]),
   (C7_cooldown_gate ⟨5, 0⟩ ⟨0, 2⟩ 6 (by norm_num [MAX_RETRIES])
      (by norm_num [MAX_RETRIES])).2.1 (by norm_num [RECONNECT_DELAY]),
   (C7_cooldown_gate ⟨5, 0⟩ ⟨0, 2⟩ 3 (by norm_num [MAX_RETRIES])
      (by norm_num [MAX_RETRIES])).2.2⟩

/-! ## Claim C8: on_error classification -/

/-- Claim C8: `on_error` classifies every error by the presence of the
substring "429": a throttle indicator yields the extended
`RATE_LIMIT_WAIT` cool-down, anything else the standard
`RECONNECT_DELAY`; the two cool-downs are distinct, and in both cases
the handler reconnects (it never raises, so it never terminates the
process). -/
theorem C8_on_error_classification (err : List Char) :
    (containsChars err ['4', '2', '9'] = true →
      on_error_model err = (RATE_LIMIT_WAIT, true)) ∧
    (containsChars err ['4', '2', '9'] = false →
      on_error_model err = (RECONNECT_DELAY, true)) ∧
    (on_error_model err).2 = true ∧
    RATE_LIMIT_WAIT ≠ RECONNECT_DELAY := by
  refine ⟨?_, ?_, ?_, by decide⟩
  · intro h; unfold on_error_model; rw [if_pos h]
  · intro h; unfold on_error_model; rw [if_neg (by simp [h])]
  · unfold on_error_model; split <;> rfl

/-- Witness for `C8_on_error_classification` on a throttle error and a
generic transport error. -/
theorem C8_witness :
    on_error_model ("Error 429".toList) = (RATE_LIMIT_WAIT, true) ∧
    on_error_model ("Connection timed out".toList) = (RECONNECT_DELAY, true) :=
  ⟨(C8_on_error_classification ("Error 429".toList)).1 (by decide),
   (C8_on_error_classification ("Connection timed out".toList)).2.1 (by decide)⟩

/-! ## Claim C9: health check -/

theorem check_step_fst_le (pf : ℕ) (now lp : ℚ) :
    (check_step pf now lp).1 ≤ pf + 1 := by
  unfold check_step
  split_ifs <;> simp

theorem check_step_miss_of_pos (pf : ℕ) (now lp : ℚ)
    (h : 1 ≤ (check_step pf now lp).1) : PING_TIMEOUT < now - lp := by
  unfold check_step at h
  split_ifs at h with h1 h2
  · exact absurd h (by omega)
  · exact h1
  · exact absurd h (by omega)

theorem check_run_close (trace : List (ℚ × ℚ)) (pf i : ℕ)
    (h : ((check_run pf trace).2).get? i = some true) :
    MAX_PING_RETRIES ≤ pf + i + 1 ∧
      ∀ j, j ≤ i → i + 1 ≤ j + MAX_PING_RETRIES → missAt trace j := by
  induction trace generalizing pf i with
  | nil => simp [check_run] at h
  | cons c cs ih =>
    rw [check_run] at h
    cases i with
    | zero =>
      have hb : (check_step pf c.1 c.2).2 = true := by
        simpa using h
      unfold check_step at hb
      split_ifs at hb with h1 h2
      refine ⟨by omega, ?_⟩
      intro j hj _
      interval_cases j
      exact ⟨c, rfl, h1⟩
    | succ k =>
      simp only [List.get?_cons_succ] at h
      obtain ⟨hA, hB⟩ := ih (check_step pf c.1 c.2).1 k h
      constructor
      · have := check_step_fst_le pf c.1 c.2
        omega
      · intro j hj hge
        cases j with
        | zero =>
          have hpf : 1 ≤ (check_step pf c.1 c.2).1 := by omega
          exact ⟨c, rfl, check_step_miss_of_pos _ _ _ hpf⟩
        | succ j2 =>
          obtain ⟨d, hd1, hd2⟩ := hB j2 (by omega) (by omega)
          exact ⟨d, by simpa using hd1, hd2⟩

/-- Claim C9: one health-check iteration increments the miss counter on a
missed pong while below the retry cap, resets it on a fresh pong, and —
exactly when the incremented counter reaches `MAX_PING_RETRIES` —
force-closes the socket and resets the counter; moreover, along any run
of the loop started at counter 0, an iteration can only close the socket
after at least `MAX_PING_RETRIES` consecutive missed-pong iterations
ending at it. -/
theorem C9_ping_watchdog (pf : ℕ) (now lp : ℚ) (trace : List (ℚ × ℚ))
    (i : ℕ) :
    (PING_TIMEOUT < now - lp → pf + 1 < MAX_PING_RETRIES →
      check_step pf now lp = (pf + 1, false)) ∧
    (now - lp ≤ PING_TIMEOUT → check_step pf now lp = (0, false)) ∧
    (PING_TIMEOUT < now - lp → MAX_PING_RETRIES ≤ pf + 1 →
      check_step pf now lp = (0, true)) ∧
    ((check_run 0 trace).2.get? i = some true →
      MAX_PING_RETRIES ≤ i + 1 ∧
        ∀ j, j ≤ i → i + 1 ≤ j + MAX_PING_RETRIES → missAt trace j) := by
  refine ⟨?_, ?_, ?_, ?_⟩
  · intro h1 h2
    unfold check_step
    rw [if_pos h1, if_neg (by omega)]
  · intro h1
    unfold check_step
    rw [if_neg (not_lt.mpr h1)]
  · intro h1 h2
    unfold check_step
    rw [if_pos h1, if_pos h2]
  · intro h
    have hc := check_run_close trace 0 i h
    exact ⟨by have := hc.1; omega, hc.2⟩

/-- Witness for `C9_ping_watchdog`: a miss below the cap, a fresh pong,
the closing third consecutive miss, and — on a three-miss trace — the
close at index 2 implies a miss at index 0. -/
theorem C9_witness :
    check_step 0 6 0 = (1, false) ∧
    check_step 1 2 0 = (0, false) ∧
    check_step 2 6 0 = (0, true) ∧
    missAt [(6, 0), (6, 0), (6, 0)] 0 :=
  ⟨(C9_ping_watchdog 0 6 0 [(6, 0), (6, 0), (6, 0)] 2).1
      (by norm_num [PING_TIMEOUT]) (by norm_num [MAX_PING_RETRIES]),
   (C9_ping_watchdog 1 2 0 [(6, 0), (6, 0), (6, 0)] 2).2.1
      (by norm_num [PING_TIMEOUT]),
   (C9_ping_watchdog 2 6 0 [(6, 0), (6, 0), (6, 0)] 2).2.2.1
      (by norm_num [PING_TIMEOUT]) (by norm_num [MAX_PING_RETRIES]),
   ((C9_ping_watchdog 0 6 0 [(6, 0), (6, 0), (6, 0)] 2).2.2.2
      (by norm_num [check_run, check_step, PING_TIMEOUT, MAX_PING_RETRIES])).2
     0 (by omega) (by norm_num [MAX_PING_RETRIES])⟩

/-! ## Claims C5 and C6: trade buffer -/

theorem drain_eq (q acc : List StockData) (h : acc.length ≤ BUFFER_SIZE) :
    drain q acc =
      (q.drop (BUFFER_SIZE - acc.length),
        acc ++ q.take (BUFFER_SIZE - acc.length)) := by
  induction q generalizing acc with
  | nil => simp [drain]
  | cons x rest ih =>
    rw [drain]
    by_cases hlt : acc.length < BUFFER_SIZE
    · have hacc : (acc ++ [x]).length ≤ BUFFER_SIZE := by
        simp only [List.length_append, List.length_singleton]
        omega
      have h1 : BUFFER_SIZE - acc.length =
          (BUFFER_SIZE - (acc ++ [x]).length) + 1 := by
        simp only [List.length_append, List.length_singleton]
        omega
      rw [if_pos hlt, ih (acc ++ [x]) hacc, h1, List.drop_succ_cons,
        List.take_succ_cons]
      simp
    · rw [if_neg hlt]
      have h0 : BUFFER_SIZE - acc.length = 0 := by omega
      simp [h0]

theorem on_message_enqueue_length (q : List StockData) (x : StockData)
    (h : q.length ≤ BUFFER_SIZE) :
    (on_message_enqueue q x).length ≤ BUFFER_SIZE := by
  unfold on_message_enqueue put_nowait
  by_cases hlt : q.length < BUFFER_SIZE
  · rw [if_pos hlt]
    simp only [List.length_append, List.length_singleton]
    omega
  · rw [if_neg hlt]
    exact h

/-- Claim C5: every buffer state reachable from the empty buffer via
`on_message` enqueues and `process_buffer` drains has length at most
`BUFFER_SIZE`, and an enqueue against a full buffer drops the event,
leaving the buffer unchanged (the raised `queue.Full` is caught and
logged instead of blocking the read loop). -/
theorem C5_buffer_capacity (q q2 : List StockData) (x : StockData)
    (hq : BufReachable q) (hfull : BUFFER_SIZE ≤ q2.length) :
    q.length ≤ BUFFER_SIZE ∧ on_message_enqueue q2 x = q2 := by
  constructor
  · induction hq with
    | init => simp
    | enqueue q3 y hq3 ih => exact on_message_enqueue_length q3 y ih
    | flush q3 hq3 ih =>
      rw [drain_eq q3 [] (by simp)]
      simp only [List.length_nil, Nat.sub_zero, List.length_drop]
      omega
  · unfold on_message_enqueue put_nowait
    rw [if_neg (not_lt.mpr hfull)]

/-- Witness for `C5_buffer_capacity`: the empty buffer is within
capacity, and enqueueing into a buffer of exactly `BUFFER_SIZE` items
leaves it unchanged. -/
theorem C5_witness :
    ([] : List StockData).length ≤ BUFFER_SIZE ∧
      on_message_enqueue (List.replicate 100 ⟨"AAPL", 1, 1, "", ""⟩)
        ⟨"AAPL", 1, 1, "", ""⟩ = List.replicate 100 ⟨"AAPL", 1, 1, "", ""⟩ :=
  C5_buffer_capacity [] (List.replicate 100 ⟨"AAPL", 1, 1, "", ""⟩)
    ⟨"AAPL", 1, 1, "", ""⟩ BufReachable.init (by simp [BUFFER_SIZE])

theorem flush_items_spec (maxReq : ℕ) (W : ℚ) (insertFn : StockData → Bool)
    (items : List StockData) (rl rl3 : RLState) (nows : List ℚ)
    (succ adm : ℕ)
    (h : flush_items maxReq W insertFn items rl nows = some (rl3, succ, adm)) :
    adm = items.length ∧ succ = items.countP (fun tr => insertFn tr) := by
  induction items generalizing rl rl3 nows succ adm with
  | nil =>
    rw [flush_items] at h
    simp only [Option.some.injEq, Prod.mk.injEq] at h
    obtain ⟨-, h2, h3⟩ := h
    simp [← h2, ← h3]
  | cons tr rest ih =>
    rw [flush_items.eq_def] at h
    cases nows with
    | nil => simp at h
    | cons now nows2 =>
      simp only at h
      split at h
      · split at h
        · simp at h
        · rename_i rl2 a hw
          split at h
          · simp at h
          · rename_i rl3b succ2 adm2 hr
            obtain ⟨hA, hB⟩ := ih rl2 rl3b nows2 succ2 adm2 hr
            simp only [Option.some.injEq, Prod.mk.injEq] at h
            obtain ⟨-, h2, h3⟩ := h
            constructor
            · simp only [← h3, hA, List.length_cons]
            · rw [← h2, List.countP_cons, hB]
              by_cases hi : insertFn tr
              · simp [hi]
              · simp [hi]
      · simp at h

/-- Claim C6: a single `process_buffer` drains `min(len, BUFFER_SIZE)`
items from the front of the buffer in FIFO order; every drained item
goes through one `RateLimiter` admission and one `insert` call (the
admission count equals the drained count); the success count is the
number of drained items whose insert succeeded; failed items are dropped
— the remaining buffer is exactly the undrained suffix, so the flush
shrinks the buffer by exactly the number of items drained. -/
theorem C6_flush_contract (maxReq : ℕ) (W : ℚ) (insertFn : StockData → Bool)
    (q rem dr : List StockData) (succ adm : ℕ) (rl rl2 : RLState)
    (nows : List ℚ)
    (h : process_buffer maxReq W insertFn q rl nows =
      some (rem, dr, succ, adm, rl2)) :
    dr = q.take BUFFER_SIZE ∧ rem = q.drop BUFFER_SIZE ∧
    q = dr ++ rem ∧ dr.length ≤ BUFFER_SIZE ∧
    rem.length + dr.length = q.length ∧
    adm = dr.length ∧ succ = dr.countP (fun tr => insertFn tr) := by
  unfold process_buffer at h
  rw [drain_eq q [] (by simp)] at h
  simp only [List.nil_append, List.length_nil, Nat.sub_zero] at h
  split at h
  · simp at h
  · rename_i rl3 succ3 adm3 hf
    simp only [Option.some.injEq, Prod.mk.injEq] at h
    obtain ⟨h1, h2, h3, h4, h5⟩ := h
    obtain ⟨hA, hB⟩ := flush_items_spec maxReq W insertFn
      (q.take BUFFER_SIZE) rl rl3 nows succ3 adm3 hf
    refine ⟨h2.symm, h1.symm, ?_, ?_, ?_, ?_, ?_⟩
    · rw [← h2, ← h1, List.take_append_drop]
    · rw [← h2, List.length_take]
      omega
    · rw [← h2, ← h1, List.length_take, List.length_drop]
      omega
    · rw [← h4, ← h2, hA]
    · rw [← h3, ← h2, hB]

/-- Witness for `C6_flush_contract`: a one-item buffer flushed with an
always-failing insert — the item is drained, admitted once, not saved,
and not re-enqueued. -/
theorem C6_witness :
    [(⟨"AAPL", 100, 2, "t", "c"⟩ : StockData)] =
      [(⟨"AAPL", 100, 2, "t", "c"⟩ : StockData)].take BUFFER_SIZE ∧
    ([] : List StockData) =
      [(⟨"AAPL", 100, 2, "t", "c"⟩ : StockData)].drop BUFFER_SIZE ∧
    [(⟨"AAPL", 100, 2, "t", "c"⟩ : StockData)] =
      [(⟨"AAPL", 100, 2, "t", "c"⟩ : StockData)] ++ ([] : List StockData) ∧
    [(⟨"AAPL", 100, 2, "t", "c"⟩ : StockData)].length ≤ BUFFER_SIZE ∧
    ([] : List StockData).length +
        [(⟨"AAPL", 100, 2, "t", "c"⟩ : StockData)].length =
      [(⟨"AAPL", 100, 2, "t", "c"⟩ : StockData)].length ∧
    1 = [(⟨"AAPL", 100, 2, "t", "c"⟩ : StockData)].length ∧
    0 = [(⟨"AAPL", 100, 2, "t", "c"⟩ : StockData)].countP
          (fun tr => (fun _ => false) tr) :=
  C6_flush_contract 30 60 (fun _ => false)
    [⟨"AAPL", 100, 2, "t", "c"⟩] [] [⟨"AAPL", 100, 2, "t", "c"⟩] 0 1
    rl_start ⟨[1], 1⟩ [0]
    (by norm_num [process_buffer, drain, flush_items, wait_if_needed,
      rl_start, BUFFER_SIZE])

/-! ## Claims C2 and C10: the rate limiter -/

theorem filter_suffix_of_sorted (l : List ℚ) (c W : ℚ)
    (hs : List.Sorted (· ≤ ·) l) :
    ∃ e, l = e ++ l.filter (fun r => decide (c - r < W)) ∧
      ∀ x ∈ e, ¬(c - x < W) := by
  induction l with
  | nil => exact ⟨[], by simp⟩
  | cons z zs ih =>
    obtain ⟨hz, hzs⟩ := List.sorted_cons.mp hs
    by_cases hp : c - z < W
    · have hall : zs.filter (fun r => decide (c - r < W)) = zs :=
        List.filter_eq_self.mpr (fun b hb => by
          simp only [decide_eq_true_eq]
          have := hz b hb
          linarith)
      refine ⟨[], ?_, by simp⟩
      simp [List.filter_cons, hp, hall]
    · obtain ⟨e, he1, he2⟩ := ih hzs
      refine ⟨z :: e, ?_, ?_⟩
      · rw [List.filter_cons, if_neg (by simp [hp]), List.cons_append]
        exact congrArg (z :: ·) he1
      · intro x hx
        rcases List.mem_cons.mp hx with h1 | h1
        · rw [h1]; exact hp
        · exact he2 x h1

theorem wait_if_needed_gap (maxReq : ℕ) (W : ℚ) (s : RLState) (now : ℚ)
    (s2 : RLState) (a : ℚ)
    (hw : wait_if_needed maxReq W s now = some (s2, a)) :
    s.last_request_time + 1 ≤ a ∧ now ≤ a ∧ s2.last_request_time = a := by
  unfold wait_if_needed at hw
  simp only at hw
  split at hw
  · split at hw
    · exact absurd hw (by simp)
    · rename_i oldest rest heq
      simp only [Option.some.injEq, Prod.mk.injEq] at hw
      obtain ⟨h1, h2⟩ := hw
      have e1 : 1 - (now - s.last_request_time) ≤
          max 0 (1 - (now - s.last_request_time)) := le_max_right _ _
      have e2 : (0 : ℚ) ≤ max 0 (1 - (now - s.last_request_time)) :=
        le_max_left _ _
      have e3 : (0 : ℚ) ≤ max 0 (oldest + W - now) := le_max_left _ _
      refine ⟨by rw [← h2]; linarith, by rw [← h2]; linarith, ?_⟩
      rw [← h1, ← h2]
  · simp only [Option.some.injEq, Prod.mk.injEq] at hw
    obtain ⟨h1, h2⟩ := hw
    have e1 : 1 - (now - s.last_request_time) ≤
        max 0 (1 - (now - s.last_request_time)) := le_max_right _ _
    have e2 : (0 : ℚ) ≤ max 0 (1 - (now - s.last_request_time)) :=
      le_max_left _ _
    refine ⟨by rw [← h2]; linarith, by rw [← h2]; linarith, ?_⟩
    rw [← h1, ← h2]

theorem rl_spacing_append (maxReq : ℕ) (W : ℚ) (hmax : 1 ≤ maxReq)
    (h : List ℚ) (a : ℚ) (hspace : rl_spacing maxReq W h)
    (hnew : ∀ x, h.get? (h.length - maxReq) = some x → maxReq ≤ h.length →
      x + W ≤ a) :
    rl_spacing maxReq W (h ++ [a]) := by
  intro i x y hx hy
  by_cases hiy : i + maxReq < h.length
  · rw [List.get?_append (by omega)] at hx
    rw [List.get?_append hiy] at hy
    exact hspace i x y hx hy
  · have hylt : i + maxReq < h.length + 1 := by
      by_contra hcon
      have hlen2 : (h ++ [a]).length ≤ i + maxReq := by
        simp only [List.length_append, List.length_singleton]
        omega
      rw [List.get?_eq_none.mpr hlen2] at hy
      exact Option.noConfusion hy
    have hieq : i + maxReq = h.length := by omega
    rw [List.get?_append_right (by omega)] at hy
    have hya : y = a := by
      rw [hieq, Nat.sub_self] at hy
      simpa using hy.symm
    have hix : i < h.length := by omega
    rw [List.get?_append hix] at hx
    have hipos : i = h.length - maxReq := by omega
    rw [hya]
    exact hnew x (hipos ▸ hx) (by omega)

theorem wait_step_inv (maxReq : ℕ) (W : ℚ) (hmax : 1 ≤ maxReq)
    (h : List ℚ) (s : RLState) (now : ℚ) (s2 : RLState) (a : ℚ)
    (hinv : RLInv maxReq W h s) (hle : s.last_request_time ≤ now)
    (hw : wait_if_needed maxReq W s now = some (s2, a)) :
    RLInv maxReq W (h ++ [a]) s2 := by
  obtain ⟨⟨d, hd, hdrop⟩, hbound, hsort, hlen, hspace⟩ := hinv
  have hreq_sorted : List.Sorted (· ≤ ·) s.requests := by
    have hsub : s.requests.Sublist h := by
      rw [hd]
      exact List.sublist_append_right d s.requests
    exact List.Pairwise.sublist hsub hsort
  obtain ⟨e, he1, he2⟩ := filter_suffix_of_sorted s.requests now W hreq_sorted
  have hgap := wait_if_needed_gap maxReq W s now s2 a hw
  have hnow_a : now ≤ a := hgap.2.1
  have hlast_a : s2.last_request_time = a := hgap.2.2
  have hde : ∀ x ∈ d ++ e, x + W ≤ a := by
    intro x hx
    rcases List.mem_append.mp hx with h1 | h1
    · have := hdrop x h1
      linarith
    · have h2 := not_lt.mp (he2 x h1)
      linarith
  have hbound_a : ∀ x ∈ h ++ [a], x ≤ a := by
    intro x hx
    rcases List.mem_append.mp hx with h1 | h1
    · have := hbound x h1
      linarith
    · simp only [List.mem_singleton] at h1
      rw [h1]
  have hsort_a : List.Sorted (· ≤ ·) (h ++ [a]) := by
    refine List.pairwise_append.mpr ⟨hsort, List.sorted_singleton a, ?_⟩
    intro x hx y hy
    simp only [List.mem_singleton] at hy
    rw [hy]
    have := hbound x hx
    linarith
  unfold wait_if_needed at hw
  simp only at hw
  split at hw
  · rename_i hfull
    split at hw
    · exact absurd hw (by simp)
    · rename_i oldest rest heq
      simp only [Option.some.injEq, Prod.mk.injEq] at hw
      obtain ⟨h1, h2⟩ := hw
      have hold : oldest + W ≤ a := by
        rw [← h2]
        have e2 : (0 : ℚ) ≤ max 0 (1 - (now - s.last_request_time)) :=
          le_max_left _ _
        have e3 : oldest + W - now ≤ max 0 (oldest + W - now) :=
          le_max_right _ _
        linarith
      have hreq2 : s2.requests = rest ++ [a] := by
        rw [← h1, ← h2]
      have hdecomp : h = (d ++ e) ++ (oldest :: rest) := by
        rw [hd, he1, heq, List.append_assoc]
      rw [heq] at hfull
      have hflen : (oldest :: rest).length ≤ maxReq := by
        rw [← heq]
        calc (s.requests.filter (fun r => decide (now - r < W))).length
            ≤ s.requests.length := List.length_filter_le _ _
          _ ≤ maxReq := hlen
      have hfeq : (oldest :: rest).length = maxReq := le_antisymm hflen hfull
      refine ⟨⟨(d ++ e) ++ [oldest], ?_, ?_⟩, ?_, hsort_a, ?_, ?_⟩
      · rw [hdecomp, hreq2]
        simp
      · intro x hx
        rw [hlast_a]
        rcases List.mem_append.mp hx with h3 | h3
        · exact hde x h3
        · simp only [List.mem_singleton] at h3
          rw [h3]
          exact hold
      · rw [hlast_a]
        exact hbound_a
      · rw [hreq2]
        simp only [List.length_append, List.length_singleton]
        simp only [List.length_cons] at hfeq
        omega
      · refine rl_spacing_append maxReq W hmax h a hspace ?_
        intro x hx hml
        have hhlen : h.length = (d ++ e).length + maxReq := by
          rw [hdecomp, List.length_append, hfeq]
        have hpos : h.length - maxReq = (d ++ e).length := by omega
        rw [hpos, hdecomp, List.get?_append_right (le_refl _)] at hx
        rw [Nat.sub_self] at hx
        simp only [List.get?_cons_zero, Option.some.injEq] at hx
        rw [← hx]
        exact hold
  · rename_i hnotfull
    simp only [Option.some.injEq, Prod.mk.injEq] at hw
    obtain ⟨h1, h2⟩ := hw
    have hreq2 : s2.requests =
        s.requests.filter (fun r => decide (now - r < W)) ++ [a] := by
      rw [← h1, ← h2]
    have hdecomp : h =
        (d ++ e) ++ s.requests.filter (fun r => decide (now - r < W)) := by
      rw [List.append_assoc, ← he1]
      exact hd
    refine ⟨⟨d ++ e, ?_, ?_⟩, ?_, hsort_a, ?_, ?_⟩
    · rw [hdecomp, hreq2, List.append_assoc]
    · intro x hx
      rw [hlast_a]
      exact hde x hx
    · rw [hlast_a]
      exact hbound_a
    · rw [hreq2]
      simp only [List.length_append, List.length_singleton]
      omega
    · refine rl_spacing_append maxReq W hmax h a hspace ?_
      intro x hx hml
      have hhlen : h.length = (d ++ e).length +
          (s.requests.filter (fun r => decide (now - r < W))).length := by
        rw [hdecomp, List.length_append]
      have hpos : h.length - maxReq < (d ++ e).length := by omega
      have hx2 : ((d ++ e) ++
          s.requests.filter (fun r => decide (now - r < W))).get?
            (h.length - maxReq) = some x := by
        rw [← hdecomp]
        exact hx
      rw [List.get?_append hpos] at hx2
      exact hde x (List.get?_mem hx2)

theorem rl_trace_inv (maxReq : ℕ) (W : ℚ) (hmax : 1 ≤ maxReq)
    (nows : List ℚ) (s s2 : RLState) (h as : List ℚ)
    (hinv : RLInv maxReq W h s)
    (hrun : rl_trace maxReq W s nows = some (s2, as)) :
    RLInv maxReq W (h ++ as) s2 := by
  induction nows generalizing s h as with
  | nil =>
    rw [rl_trace] at hrun
    simp only [Option.some.injEq, Prod.mk.injEq] at hrun
    obtain ⟨h1, h2⟩ := hrun
    rw [← h2, List.append_nil, ← h1]
    exact hinv
  | cons now rest ih =>
    rw [rl_trace] at hrun
    split at hrun
    · rename_i hle
      split at hrun
      · exact absurd hrun (by simp)
      · rename_i s1 a hw
        split at hrun
        · exact absurd hrun (by simp)
        · rename_i s3 as2 hr
          simp only [Option.some.injEq, Prod.mk.injEq] at hrun
          obtain ⟨h1, h2⟩ := hrun
          subst h1
          subst h2
          have hstep := wait_step_inv maxReq W hmax h s now s1 a hinv hle hw
          have hrest := ih s1 (h ++ [a]) as2 hstep hr
          rw [List.append_assoc] at hrest
          simpa using hrest
    · exact absurd hrun (by simp)

theorem sorted_count_le_of_get (l : List ℚ) (c : ℚ) (k : ℕ) (y : ℚ)
    (hs : List.Sorted (· ≤ ·) l) (hget : l.get? k = some y) (hy : c < y) :
    l.countP (fun b => decide (b ≤ c)) ≤ k := by
  induction l generalizing k with
  | nil => simp at hget
  | cons z zs ih =>
    obtain ⟨hz, hzs⟩ := List.sorted_cons.mp hs
    cases k with
    | zero =>
      simp only [List.get?_cons_zero, Option.some.injEq] at hget
      have hcount : zs.countP (fun b => decide (b ≤ c)) = 0 := by
        rw [List.countP_eq_zero]
        intro b hb
        have h1 := hz b hb
        simp only [decide_eq_true_eq]
        rw [hget] at h1
        linarith
      rw [List.countP_cons, hcount]
      have : ¬(z ≤ c) := by rw [hget]; linarith
      simp [this]
    | succ k2 =>
      simp only [List.get?_cons_succ] at hget
      have := ih k2 hzs hget
      rw [List.countP_cons]
      split <;> omega

theorem spacing_window_count (maxReq : ℕ) (W : ℚ) (l : List ℚ)
    (hs : List.Sorted (· ≤ ·) l) (hsp : rl_spacing maxReq W l) (t : ℚ) :
    rl_window_count W l t ≤ maxReq := by
  induction l with
  | nil => simp [rl_window_count]
  | cons x xs ih =>
    obtain ⟨hx, hxs⟩ := List.sorted_cons.mp hs
    have hsp2 : rl_spacing maxReq W xs := by
      intro i b c hb hc
      exact hsp (i + 1) b c (by simpa using hb)
        (by rw [show i + 1 + maxReq = (i + maxReq) + 1 by omega]; simpa using hc)
    by_cases hpx : t < x ∧ x ≤ t + W
    · cases maxReq with
      | zero =>
        have h0 := hsp 0 x x (by simp) (by simp)
        have : W ≤ 0 := by linarith
        obtain ⟨hp1, hp2⟩ := hpx
        linarith
      | succ m =>
        unfold rl_window_count
        rw [List.countP_cons]
        have hcx : (decide (t < x) && decide (x ≤ t + W)) = true := by
          simp [hpx.1, hpx.2]
        rw [if_pos hcx]
        have hxs_bound : xs.countP
            (fun a => decide (t < a) && decide (a ≤ t + W)) ≤ m := by
          cases hgm : xs.get? m with
          | none =>
            have hlen := List.get?_eq_none.mp hgm
            calc xs.countP (fun a => decide (t < a) && decide (a ≤ t + W))
                ≤ xs.length := List.countP_le_length _
              _ ≤ m := hlen
          | some y2 =>
            have hy2 := hsp 0 x y2 (by simp) (by simpa using hgm)
            have hylt : t + W < y2 := by linarith [hpx.1]
            have hmono : xs.countP (fun a => decide (t < a) && decide (a ≤ t + W))
                ≤ xs.countP (fun b => decide (b ≤ t + W)) := by
              refine List.countP_mono_left ?_
              intro b hb hpb
              simp only [Bool.and_eq_true, decide_eq_true_eq] at hpb
              simp only [decide_eq_true_eq]
              exact hpb.2
            calc xs.countP (fun a => decide (t < a) && decide (a ≤ t + W))
                ≤ xs.countP (fun b => decide (b ≤ t + W)) := hmono
              _ ≤ m := sorted_count_le_of_get xs (t + W) m y2 hxs hgm hylt
        omega
    · unfold rl_window_count
      rw [List.countP_cons]
      have hcx : ¬((decide (t < x) && decide (x ≤ t + W)) = true) := by
        simp only [Bool.and_eq_true, decide_eq_true_eq]
        exact hpx
      rw [if_neg hcx]
      simpa [rl_window_count] using ih hxs hsp2

/-- Claim C2: for any realizable sequence of sequential calls to
`wait_if_needed` starting from a fresh limiter, every half-open sliding
window of length `time_window` contains at most `max_requests` admission
timestamps. -/
theorem C2_sliding_window_bound (maxReq : ℕ) (W : ℚ) (nows : List ℚ)
    (s2 : RLState) (as : List ℚ) (t : ℚ) (hmax : 1 ≤ maxReq)
    (hrun : rl_trace maxReq W rl_start nows = some (s2, as)) :
    rl_window_count W as t ≤ maxReq := by
  have hinit : RLInv maxReq W [] rl_start := by
    refine ⟨⟨[], rfl, by simp⟩, by simp, List.sorted_nil, ?_, ?_⟩
    · simp [rl_start]
    · intro i x y hx
      simp at hx
  have hinv := rl_trace_inv maxReq W hmax nows rl_start s2 [] as hinit hrun
  rw [List.nil_append] at hinv
  exact spacing_window_count maxReq W as hinv.2.2.1 hinv.2.2.2.2 t

/-- Witness for `C2_sliding_window_bound`: two sequential calls with
`max_requests = 1`, `time_window = 1` admit at timestamps 1 and 3; the
window `(0, 1]` holds a single admission. -/
theorem C2_witness : rl_window_count 1 [1, 3] 0 ≤ 1 :=
  C2_sliding_window_bound 1 1 [0, 1] ⟨[3], 3⟩ [1, 3] 0 (by decide)
    (by norm_num [rl_trace, wait_if_needed, rl_start])

theorem rl_trace_consec (maxReq : ℕ) (W : ℚ) (nows : List ℚ)
    (s s2 : RLState) (as : List ℚ)
    (hrun : rl_trace maxReq W s nows = some (s2, as)) :
    (∀ i x y, as.get? i = some x → as.get? (i + 1) = some y → x + 1 ≤ y) ∧
    (∀ x, as.get? 0 = some x → s.last_request_time + 1 ≤ x) := by
  induction nows generalizing s s2 as with
  | nil =>
    rw [rl_trace] at hrun
    simp only [Option.some.injEq, Prod.mk.injEq] at hrun
    obtain ⟨h1, h2⟩ := hrun
    subst h1
    subst h2
    constructor
    · intro i x y hx
      simp at hx
    · intro x hx
      simp at hx
  | cons now rest ih =>
    rw [rl_trace] at hrun
    split at hrun
    · rename_i hle
      split at hrun
      · exact absurd hrun (by simp)
      · rename_i s1 a hw
        split at hrun
        · exact absurd hrun (by simp)
        · rename_i s3 as2 hr
          simp only [Option.some.injEq, Prod.mk.injEq] at hrun
          obtain ⟨h1, h2⟩ := hrun
          subst h1
          subst h2
          have hgap := wait_if_needed_gap maxReq W s now s1 a hw
          obtain ⟨ihA, ihB⟩ := ih s1 s3 as2 hr
          constructor
          · intro i x y hx hy
            cases i with
            | zero =>
              simp only [List.get?_cons_zero, Option.some.injEq] at hx
              simp only [List.get?_cons_succ] at hy
              have := ihB y hy
              rw [hgap.2.2] at this
              rw [← hx]
              exact this
            | succ k =>
              simp only [List.get?_cons_succ] at hx hy
              exact ihA k x y hx hy
          · intro x hx
            simp only [List.get?_cons_zero, Option.some.injEq] at hx
            rw [← hx]
            exact hgap.1
    · exact absurd hrun (by simp)

/-- Claim C10: any two consecutive admissions produced by a realizable
sequence of sequential `wait_if_needed` calls from a fresh limiter are
at least one second apart — the minimum-gap sleep runs before the
sliding-window check, so back-to-back callers are spaced even when the
window holds fewer than `max_requests` entries. -/
theorem C10_min_one_second_gap (maxReq : ℕ) (W : ℚ) (nows : List ℚ)
    (s2 : RLState) (as : List ℚ) (i : ℕ) (x y : ℚ)
    (hrun : rl_trace maxReq W rl_start nows = some (s2, as))
    (hx : as.get? i = some x) (hy : as.get? (i + 1) = some y) :
    x + 1 ≤ y :=
  (rl_trace_consec maxReq W nows rl_start s2 as hrun).1 i x y hx hy

/-- Witness for `C10_min_one_second_gap`: with `max_requests = 1` and
`time_window = 1`, calls at times 0 and 1 are admitted at 1 and 3. -/
theorem C10_witness : (1 : ℚ) + 1 ≤ 3 :=
  C10_min_one_second_gap 1 1 [0, 1] ⟨[3], 3⟩ [1, 3] 0 1 3
    (by norm_num [rl_trace, wait_if_needed, rl_start]) rfl rfl
